import Mathlib

/-!
Verification of the tag facet aggregator and timestamp normalizer of the
IncidentAvengers repository (datadog_rca.py, Slack/slack_convo_viewer.py and
the copies in the nvidia_nat_langchain tool wrappers).

The Python code is shallowly embedded: records become a structure with
optional fields, Counter objects become association lists in insertion
order, Counter.most_common becomes a stable insertion sort by count
descending, and round(x, 2) on percentage floats is modelled exactly as
round half to even over the rational value, represented in hundredths of a
percent (centi-percent) by natural numbers.
-/

namespace IncidentAvengers

/-! ## Character list primitives mirroring the Python string operations -/

/-- Test whether the list p is a prefix of the list l, by characters
(models str.startswith for single-byte reasoning on the List Char view). -/
def isPrefixL : List Char → List Char → Bool
  | [], _ => true
  | _ :: _, [] => false
  | p :: ps, c :: cs => p = c && isPrefixL ps cs

/-- Characters that Python str.strip removes (ASCII whitespace subset). -/
def isPySpace (c : Char) : Bool :=
  c = ' ' || c = '\t' || c = '\n' || c = '\r' || c = '\x0b' || c = '\x0c'

/-- Model of Python str.strip on the character list. -/
def pyStripL (l : List Char) : List Char :=
  ((l.dropWhile isPySpace).reverse.dropWhile isPySpace).reverse

/-- Model of Python t.split(sep, 1)[1] for sep a colon: the characters after
the first colon. Total where Python would raise IndexError on a string with
no colon; in the program this is only applied to tags that start with a
colon-terminated facet name, where a colon is always present. -/
def afterColonL (l : List Char) : List Char :=
  (l.dropWhile (fun c => c ≠ ':')).drop 1

/-- Model of Python s.replace for the single-character pattern Z, replacing
every occurrence of Z by the replacement characters. -/
def replaceZL (l : List Char) (repl : List Char) : List Char :=
  l.flatMap (fun c => if c = 'Z' then repl else [c])

/-! ## Data model of the aggregator (datadog_rca.py lines 45-93) -/

/-- A monitoring record: the two fields the aggregator reads. An absent or
null tags field is modelled as none (the source merges both into the empty
list via p.get with default followed by the or-else idiom). -/
structure DDRecord where
  tags : Option (List String)
  name : Option String

/-- Model of p.get with default [] followed by the or-[] idiom on line 68. -/
def tagsOf (r : DDRecord) : List String := r.tags.getD []

/-- Model of parse_tag_value (datadog_rca.py lines 45-49): return the part
after the first colon of the first tag starting with the given facet name,
or none if no tag matches. -/
def parse_tag_value (pfx : String) : List String → Option String
  | [] => none
  | t :: ts =>
    if isPrefixL pfx.data t.data then some (String.mk (afterColonL t.data))
    else parse_tag_value pfx ts

/-- Model of Python truthiness on an optional string: none and the empty
string are falsy. -/
def truthy : Option String → Option String
  | none => none
  | some s => if s = "" then none else some s

/-- Model of the Python or operator on optional strings: the left operand
if truthy, otherwise the right operand unchanged. -/
def pyOr (a b : Option String) : Option String :=
  match truthy a with
  | some v => some v
  | none => b

/-- A Python Counter restricted to the operations the program uses: an
association list from value to count, keys kept in first-insertion order. -/
abbrev Counter := List (String × Nat)

/-- Increment a key of a counter: bump the existing binding in place, or
append a fresh binding with count 1 at the end (dict insertion order). -/
def incr (c : Counter) (k : String) : Counter :=
  match c with
  | [] => [(k, 1)]
  | (k', n) :: rest => if k' = k then (k', n + 1) :: rest else (k', n) :: incr rest k

/-- Model of the guarded increment idiom on lines 73-75, 81 and 84: only a
truthy value is counted. -/
def bump (c : Counter) (v : Option String) : Counter :=
  match truthy v with
  | some s => incr c s
  | none => c

/-- Lookup of the count recorded for a key (0 when absent). -/
def cnt (c : Counter) (k : String) : Nat :=
  match c with
  | [] => 0
  | (k', n) :: rest => if k' = k then n else cnt rest k

/-- Total of all counts of a counter. -/
def totalCount (c : Counter) : Nat := (c.map (fun e => e.2)).sum

/-- Keys of a counter in insertion order. -/
def keysOf (c : Counter) : List String := c.map (fun e => e.1)

/-- The running state of collect_buckets: the five facet counters. -/
structure CState where
  by_version : Counter
  by_host : Counter
  by_error_code : Counter
  dependencies : Counter
  operations : Counter

def initState : CState := ⟨[], [], [], [], []⟩

/-- The four dependency facet names in the priority order of lines 77-80. -/
def depPrefixes : List String :=
  ["peer.service:", "db.instance:", "http.host:", "net.peer.name:"]

/-- The dependency extraction chain of lines 77-80. -/
def depOf (tags : List String) : Option String :=
  pyOr (parse_tag_value "peer.service:" tags)
    (pyOr (parse_tag_value "db.instance:" tags)
      (pyOr (parse_tag_value "http.host:" tags)
        (parse_tag_value "net.peer.name:" tags)))

/-- The operation extraction of line 83: the operation tag value or else the
name field of the record. -/
def opOf (r : DDRecord) : Option String :=
  pyOr (parse_tag_value "operation:" (tagsOf r)) r.name

/-- The body of the record loop of collect_buckets (lines 67-84). -/
def step (acc : CState) (p : DDRecord) : CState :=
  let tags := tagsOf p
  { by_version := bump acc.by_version (parse_tag_value "version:" tags)
    by_host := bump acc.by_host (parse_tag_value "host:" tags)
    by_error_code := bump acc.by_error_code (parse_tag_value "error.code:" tags)
    dependencies := bump acc.dependencies (depOf tags)
    operations := bump acc.operations (opOf p) }

/-- Stable insertion of an entry into a list sorted by count descending:
the entry goes before the first element whose count is not larger, so that
elements inserted later (which come earlier in the original list under the
foldr below) stay in front of equal counts. -/
def insertByCount (x : String × Nat) : List (String × Nat) → List (String × Nat)
  | [] => [x]
  | y :: ys => if x.2 < y.2 then y :: insertByCount x ys else x :: y :: ys

/-- Stable sort by count descending, modelling the documented behavior of
Counter.most_common (heapq.nlargest is equivalent to a stable reverse sort
by the count key, so equal counts keep first-insertion order). -/
def sortByCountDesc (l : List (String × Nat)) : List (String × Nat) :=
  l.foldr insertByCount []

/-- Model of the nested helper top_list (lines 86-87). -/
def top_list (c : Counter) (k : Nat) : List (String × Nat) :=
  (sortByCountDesc c).take k

/-- The bucket triple (by_version, by_host, by_error_code). -/
abbrev BucketTriple := List (String × Nat) × List (String × Nat) × List (String × Nat)

/-- Model of collect_buckets (lines 60-93). -/
def collect_buckets (rs : List DDRecord) :
    BucketTriple × Counter × Counter :=
  let s := rs.foldl step initState
  ((top_list s.by_version 5, top_list s.by_host 5, top_list s.by_error_code 5),
    s.dependencies, s.operations)

/-! ## Percentages (add_pct, datadog_rca.py lines 51-58)

Python round(x, 2) on the exact rational percentage is round half to even
at two decimal places. We carry percentages in centi-percent (hundredths of
a percent) as natural numbers: the float 46.88 is represented as 4688.
This models the CPython result exactly on the rational value; double
rounding artifacts of binary floating point, which require facet totals in
the thousands to surface, are idealized away. -/

/-- Round a / t to the nearest natural number, ties to even (t positive). -/
def roundHalfEvenDiv (a t : Nat) : Nat :=
  let q := a / t
  let r := a % t
  if 2 * r < t then q
  else if t < 2 * r then q + 1
  else if q % 2 = 0 then q else q + 1

/-- A ranked bucket entry after add_pct: value, count, and the percentage
in centi-percent (pct 4688 models the float 46.88). -/
structure Entry where
  value : String
  count : Nat
  pct : Nat
deriving DecidableEq

/-- The denominator of add_pct (line 55): the sum of the counts of the
entries of the bucket list itself, with the or-1 floor. -/
def totalFloor (items : List (String × Nat)) : Nat :=
  let s := (items.map (fun e => e.2)).sum
  if s = 0 then 1 else s

/-- Percentage attachment for one bucket list (lines 54-57). -/
def addPctList (items : List (String × Nat)) : List Entry :=
  let t := totalFloor items
  items.map (fun e => ⟨e.1, e.2, roundHalfEvenDiv (10000 * e.2) t⟩)

/-- Model of add_pct (lines 51-58), applied to the three bucket lists. -/
def add_pct (b : BucketTriple) : List Entry × List Entry × List Entry :=
  (addPctList b.1, addPctList b.2.1, addPctList b.2.2)

/-- The aggregation with percentages attached: collect_buckets followed by
add_pct on the three JSON-bound buckets. -/
def aggregate (rs : List DDRecord) :
    (List Entry × List Entry × List Entry) × Counter × Counter :=
  let (b, d, o) := collect_buckets rs
  (add_pct b, d, o)

/-- Written from the spec sentence of C1, for comparison with the code: the
percentage denominator is the sum of ALL counts recorded for the facet in
the current call, over every distinct value observed, not only the entries
kept in the bucket, with a floor of 1. -/
def specPctOfFullFacet (fullCounter : Counter) (count : Nat) : Nat :=
  let s := totalCount fullCounter
  roundHalfEvenDiv (10000 * count) (if s = 0 then 1 else s)

/-! ## Timestamp normalizer (Slack/slack_convo_viewer.py lines 20-36)

datetime.fromisoformat is modelled on the grammar it accepts on the Python
versions this script targets (3.7 through 3.10 and the strict core of
3.11): YYYY-MM-DD, optionally followed by one separator character and
HH, HH:MM or HH:MM:SS, an optional fraction of exactly 3 or 6 digits, and
an optional offset of the form +HH:MM or -HH:MM whose magnitude must stay
under 24 hours (sub-minute offset forms are not modelled). Field ranges
are validated as the datetime constructor does. A parse failure is the
ValueError of the source. -/

/-- A parsed datetime value; off is the UTC offset in minutes, none for a
naive value. -/
structure PyDateTime where
  year : Nat
  month : Nat
  day : Nat
  hour : Nat
  minute : Nat
  second : Nat
  microsecond : Nat
  off : Option Int

def isDigitC (c : Char) : Bool := '0' ≤ c && c ≤ '9'

def digitVal (c : Char) : Nat := c.toNat - 48

/-- Read exactly n digits into an accumulator. -/
def digsAux (acc : Nat) : Nat → List Char → Option (Nat × List Char)
  | 0, l => some (acc, l)
  | _ + 1, [] => none
  | n + 1, c :: cs =>
    if isDigitC c then digsAux (acc * 10 + digitVal c) n cs else none

def digs (n : Nat) (l : List Char) : Option (Nat × List Char) := digsAux 0 n l

def expectC (c : Char) : List Char → Option (List Char)
  | [] => none
  | x :: xs => if x = c then some xs else none

def isLeap (y : Nat) : Bool := y % 4 = 0 && (y % 100 ≠ 0 || y % 400 = 0)

def daysInMonth (y m : Nat) : Nat :=
  if m = 2 then (if isLeap y then 29 else 28)
  else if m = 4 || m = 6 || m = 9 || m = 11 then 30
  else 31

/-- Parse the optional trailing UTC offset: end of input means a naive
value, otherwise a sign followed by HH:MM consuming the rest, with the
timedelta magnitude check of the timezone constructor. -/
def parseTz (l : List Char) : Option (Option Int) :=
  match l with
  | [] => some none
  | s :: rest =>
    if s = '+' || s = '-' then
      match digs 2 rest with
      | none => none
      | some (h, r1) =>
        match expectC ':' r1 with
        | none => none
        | some r2 =>
          match digs 2 r2 with
          | none => none
          | some (m, r3) =>
            match r3 with
            | [] =>
              let tot : Int := h * 60 + m
              if tot < 1440 then some (some (if s = '-' then -tot else tot))
              else none
            | _ => none
    else none

/-- Parse a fraction tail after the dot: a maximal digit run of exactly 3
or 6 digits, yielding microseconds. -/
def parseFrac (l : List Char) : Option (Nat × List Char) :=
  let ds := l.takeWhile isDigitC
  let rest := l.dropWhile isDigitC
  match digs ds.length ds with
  | some (v, _) =>
    if ds.length = 6 then some (v, rest)
    else if ds.length = 3 then some (v * 1000, rest)
    else none
  | none => none

/-- Parse the time-of-day part after the separator character, including the
optional fraction and offset, with constructor range checks. -/
def parseTimePart (l : List Char) : Option (Nat × Nat × Nat × Nat × Option Int) :=
  match digs 2 l with
  | none => none
  | some (hh, r1) =>
    if hh ≥ 24 then none else
    match r1 with
    | ':' :: r2 =>
      match digs 2 r2 with
      | none => none
      | some (mm, r3) =>
        if mm ≥ 60 then none else
        match r3 with
        | ':' :: r4 =>
          match digs 2 r4 with
          | none => none
          | some (ss, r5) =>
            if ss ≥ 60 then none else
            match r5 with
            | '.' :: r6 =>
              match parseFrac r6 with
              | none => none
              | some (us, r7) =>
                match parseTz r7 with
                | none => none
                | some o => some (hh, mm, ss, us, o)
            | _ =>
              match parseTz r5 with
              | none => none
              | some o => some (hh, mm, ss, 0, o)
        | _ =>
          match parseTz r3 with
          | none => none
          | some o => some (hh, mm, 0, 0, o)
    | _ =>
      match parseTz r1 with
      | none => none
      | some o => some (hh, 0, 0, 0, o)

/-- Model of datetime.fromisoformat on the grammar described above. -/
def parseISO (l : List Char) : Option PyDateTime :=
  match digs 4 l with
  | none => none
  | some (y, r1) =>
    match expectC '-' r1 with
    | none => none
    | some r2 =>
      match digs 2 r2 with
      | none => none
      | some (mo, r3) =>
        match expectC '-' r3 with
        | none => none
        | some r4 =>
          match digs 2 r4 with
          | none => none
          | some (dy, r5) =>
            if y = 0 || mo = 0 || mo > 12 || dy = 0 || dy > daysInMonth y mo then none
            else
              match r5 with
              | [] => some ⟨y, mo, dy, 0, 0, 0, 0, none⟩
              | _sep :: rt =>
                match parseTimePart rt with
                | none => none
                | some (hh, mm, ss, us, o) => some ⟨y, mo, dy, hh, mm, ss, us, o⟩

/-- Days since 1970-01-01 of a civil date (standard civil-calendar
conversion with floor division). -/
def daysFromCivil (y m d : Int) : Int :=
  let y2 := y - (if m ≤ 2 then 1 else 0)
  let era := Int.ediv y2 400
  let yoe := y2 - era * 400
  let mp := Int.emod (m + 9) 12
  let doy := Int.ediv (153 * mp + 2) 5 + d - 1
  let doe := yoe * 365 + Int.ediv yoe 4 - Int.ediv yoe 100 + doy
  era * 146097 + doe - 719468

/-- Civil date of a count of days since 1970-01-01. -/
def civilFromDays (z0 : Int) : Int × Int × Int :=
  let z := z0 + 719468
  let era := Int.ediv z 146097
  let doe := z - era * 146097
  let yoe := Int.ediv (doe - Int.ediv doe 1460 + Int.ediv doe 36524 - Int.ediv doe 146096) 365
  let y := yoe + era * 400
  let doy := doe - (365 * yoe + Int.ediv yoe 4 - Int.ediv yoe 100)
  let mp := Int.ediv (5 * doy + 2) 153
  let d := doy - Int.ediv (153 * mp + 2) 5 + 1
  let m := mp + (if mp < 10 then 3 else -9)
  (y + (if m ≤ 2 then 1 else 0), m, d)

/-- Model of dt.astimezone(timezone.utc) for an aware value with offset o
minutes: shift the wall clock by -o with calendar rollover; seconds and
microseconds are unchanged because modelled offsets are whole minutes. -/
def astimezoneUtc (dt : PyDateTime) (o : Int) : PyDateTime :=
  let days := daysFromCivil dt.year dt.month dt.day
  let tot := days * 1440 + dt.hour * 60 + dt.minute - o
  let d2 := Int.ediv tot 1440
  let rem := Int.emod tot 1440
  let c := civilFromDays d2
  ⟨c.1.toNat, c.2.1.toNat, c.2.2.toNat, (Int.ediv rem 60).toNat,
    (Int.emod rem 60).toNat, dt.second, dt.microsecond, some 0⟩

/-- Lines 32-35 of the source: a naive value is stamped UTC in place, an
aware one is converted to UTC. -/
def toUTC (dt : PyDateTime) : PyDateTime :=
  match dt.off with
  | none => { dt with off := some 0 }
  | some o => astimezoneUtc dt o

def digitChar : Nat → Char
  | 0 => '0' | 1 => '1' | 2 => '2' | 3 => '3' | 4 => '4'
  | 5 => '5' | 6 => '6' | 7 => '7' | 8 => '8' | _ => '9'

def pad2 (n : Nat) : String := String.mk [digitChar (n / 10 % 10), digitChar (n % 10)]

def pad4 (n : Nat) : String :=
  String.mk [digitChar (n / 1000 % 10), digitChar (n / 100 % 10),
    digitChar (n / 10 % 10), digitChar (n % 10)]

def pad6 (n : Nat) : String :=
  String.mk [digitChar (n / 100000 % 10), digitChar (n / 10000 % 10),
    digitChar (n / 1000 % 10), digitChar (n / 100 % 10),
    digitChar (n / 10 % 10), digitChar (n % 10)]

/-- The trailing offset of datetime.isoformat: absent for a naive value,
sign and HH:MM for an aware one. -/
def offsetSuffix : Option Int → String
  | none => ""
  | some o =>
    (if o < 0 then "-" else "+") ++ pad2 (o.natAbs / 60) ++ ":" ++ pad2 (o.natAbs % 60)

/-- The date-time body of datetime.isoformat: microseconds printed as six
digits only when nonzero. -/
def isoBase (dt : PyDateTime) : String :=
  pad4 dt.year ++ "-" ++ pad2 dt.month ++ "-" ++ pad2 dt.day ++ "T" ++
    pad2 dt.hour ++ ":" ++ pad2 dt.minute ++ ":" ++ pad2 dt.second ++
    (if dt.microsecond = 0 then "" else "." ++ pad6 dt.microsecond)

def isoformat (dt : PyDateTime) : String := isoBase dt ++ offsetSuffix dt.off

/-- Model of to_utc_with_offset (slack_convo_viewer.py lines 20-36).
Except.error models a ValueError escaping the function. -/
def to_utc_with_offset (ts : Option String) : Except Unit (Option String) :=
  match ts with
  | none => Except.ok none
  | some s =>
    if s = "" then Except.ok none
    else
      let tsNorm := replaceZL (pyStripL s.data) ("+00:00".data)
      match parseISO tsNorm with
      | some dt => Except.ok (some (isoformat (toUTC dt)))
      | none =>
        let tsNorm2 :=
          if !(tsNorm.any (fun c => c = '+')) && tsNorm.any (fun c => c = 'T') then
            tsNorm.takeWhile (fun c => c ≠ '.') ++ ("+00:00".data)
          else tsNorm
        match parseISO tsNorm2 with
        | some dt => Except.ok (some (isoformat (toUTC dt)))
        | none => Except.error ()

/-! ## Named inputs and small derived quantities used by the claims -/

/-- A record carrying only tags, the shape of the scenario inputs. -/
def mkRec (t : List String) : DDRecord := ⟨some t, none⟩

/-- The round-trip input of the spec (two records, three facets). -/
def c7_input : List DDRecord :=
  [mkRec ["version:1.2", "host:a", "error.code:500"],
    mkRec ["version:1.2", "host:b"]]

/-- Six records with six distinct host values: the bucket keeps only five,
separating the bucket-total denominator from the full-facet denominator. -/
def c1_input : List DDRecord :=
  [mkRec ["host:a"], mkRec ["host:b"], mkRec ["host:c"],
    mkRec ["host:d"], mkRec ["host:e"], mkRec ["host:f"]]

/-- Thirty-two records over four host values (15, 11, 3 and 3 occurrences):
every percentage lands exactly on a half-hundredth and rounds up, so the
rounded percentages sum to 100.02. -/
def c2_input : List DDRecord :=
  List.replicate 15 (mkRec ["host:h1"]) ++ List.replicate 11 (mkRec ["host:h2"]) ++
    List.replicate 3 (mkRec ["host:h3"]) ++ List.replicate 3 (mkRec ["host:h4"])

/-- Sum of the centi-percent values of a percentage bucket. -/
def sumPct (b : List Entry) : Nat := (b.map (fun e => e.pct)).sum

/-- The add_pct denominator recomputed from a percentage bucket: the counts
are unchanged by add_pct, so this is the same total with the or-1 floor. -/
def entryTotalFloor (b : List Entry) : Nat :=
  let s := (b.map (fun e => e.count)).sum
  if s = 0 then 1 else s

/-- Conjunction of per-entry count positivity for the three bucket facets
of a running state. -/
def BucketsPos (s : CState) : Prop :=
  (∀ e ∈ s.by_version, 1 ≤ e.2) ∧ (∀ e ∈ s.by_host, 1 ≤ e.2) ∧
    (∀ e ∈ s.by_error_code, 1 ≤ e.2)

/-! ## Lemmas about counters and truthiness -/

theorem totalCount_incr (c : Counter) (k : String) :
    totalCount (incr c k) = totalCount c + 1 := by
  induction c with
  | nil => rfl
  | cons e rest ih =>
    obtain ⟨k', n⟩ := e
    by_cases h : k' = k <;> simp [incr, h, totalCount] at ih ⊢ <;> omega

theorem cnt_incr (c : Counter) (v k : String) :
    cnt (incr c v) k = cnt c k + (if k = v then 1 else 0) := by
  induction c with
  | nil => simp [incr, cnt]; split <;> simp_all [eq_comm]
  | cons e rest ih =>
    obtain ⟨k', n⟩ := e
    by_cases h : k' = v
    · subst h
      by_cases hk : k' = k
      · subst hk; simp [incr, cnt]
      · simp [incr, cnt, hk]
        have : ¬ k = k' := fun hh => hk hh.symm
        simp [this]
    · by_cases hk : k' = k
      · subst hk
        have : ¬ k' = v := h
        simp [incr, cnt, this]
      · simp [incr, cnt, h, hk, ih]

theorem totalCount_bump_le (c : Counter) (v : Option String) :
    totalCount (bump c v) ≤ totalCount c + 1 := by
  cases h : truthy v with
  | none => simp only [bump, h]; omega
  | some s => simp only [bump, h, totalCount_incr]; omega

theorem cnt_bump_le (c : Counter) (v : Option String) (k : String) :
    cnt (bump c v) k ≤ cnt c k + 1 := by
  cases h : truthy v with
  | none => simp only [bump, h]; omega
  | some s => simp only [bump, h, cnt_incr]; split <;> omega

theorem keysOf_incr (c : Counter) (v : String) :
    keysOf (incr c v) = if v ∈ keysOf c then keysOf c else keysOf c ++ [v] := by
  induction c with
  | nil => simp [incr, keysOf]
  | cons e rest ih =>
    obtain ⟨k', n⟩ := e
    by_cases h : k' = v
    · subst h; simp [incr, keysOf]
    · have hv : ¬ v = k' := fun hh => h hh.symm
      by_cases hm : v ∈ (rest.map (fun e => e.1)) <;>
        simp [incr, keysOf, h, hv, hm] at ih ⊢ <;> simp [ih]

theorem counts_pos_incr (c : Counter) (v : String)
    (h : ∀ e ∈ c, 1 ≤ e.2) : ∀ e ∈ incr c v, 1 ≤ e.2 := by
  induction c with
  | nil => intro e he; simp [incr] at he; simp [he]
  | cons x rest ih =>
    obtain ⟨k', n⟩ := x
    intro e he
    by_cases hk : k' = v
    · simp [incr, hk] at he
      rcases he with he | he
      · simp [he]
      · exact h e (by simp [he])
    · simp [incr, hk] at he
      rcases he with he | he
      · exact h e (by simp [he])
      · exact ih (fun x hx => h x (by simp [hx])) e he

theorem counts_pos_bump (c : Counter) (v : Option String)
    (h : ∀ e ∈ c, 1 ≤ e.2) : ∀ e ∈ bump c v, 1 ≤ e.2 := by
  unfold bump
  cases truthy v with
  | none => exact h
  | some s => exact counts_pos_incr c s h

theorem truthy_some_ne (x : Option String) (v : String)
    (h : truthy x = some v) : x = some v ∧ v ≠ "" := by
  cases x with
  | none => simp [truthy] at h
  | some s =>
    by_cases hs : s = "" <;> simp [truthy, hs] at h <;> simp_all

theorem bump_of_truthy_eq (c : Counter) (v w : Option String)
    (h : truthy v = truthy w) : bump c v = bump c w := by
  unfold bump; rw [h]

theorem truthy_pyOr (x y : Option String) :
    truthy (pyOr x y) =
      match truthy x with
      | some v => some v
      | none => truthy y := by
  cases hx : truthy x with
  | none => simp [pyOr, hx]
  | some v =>
    obtain ⟨-, hv⟩ := truthy_some_ne x v hx
    simp only [pyOr, hx]
    simp [truthy, hv]

/-! ## Lemmas about parse_tag_value -/

theorem ptv_eq_find (pfx : String) (tags : List String) :
    parse_tag_value pfx tags =
      (tags.find? (fun t => isPrefixL pfx.data t.data)).map
        (fun t => String.mk (afterColonL t.data)) := by
  induction tags with
  | nil => rfl
  | cons t ts ih =>
    by_cases h : isPrefixL pfx.data t.data <;>
      simp [parse_tag_value, List.find?_cons, h, ih]

theorem afterColonL_of_pfx :
    ∀ (p : List Char) (l : List Char), ':' ∉ p →
      isPrefixL (p ++ [':']) l = true → afterColonL l = l.drop (p.length + 1) := by
  intro p
  induction p with
  | nil =>
    intro l _ h
    cases l with
    | nil => simp [isPrefixL] at h
    | cons c cs =>
      have hc : c = ':' := by
        have := by simpa [isPrefixL] using h
        exact this.symm
      subst hc
      simp [afterColonL, List.dropWhile]
  | cons a p' ih =>
    intro l hni h
    cases l with
    | nil => simp [isPrefixL] at h
    | cons c cs =>
      simp [isPrefixL] at h
      obtain ⟨hc, hrest⟩ := h
      subst hc
      have ha : ¬ (a = ':') := fun hh => hni (by simp [hh])
      have hni' : ':' ∉ p' := fun hh => hni (by simp [hh])
      have := ih cs hni' hrest
      simp [afterColonL, List.dropWhile, ha] at this ⊢
      simpa [afterColonL] using this

/-! ## Lemmas about the stable descending sort -/

theorem mem_insertByCount (a x : String × Nat) :
    ∀ l, x ∈ insertByCount a l ↔ x = a ∨ x ∈ l := by
  intro l
  induction l with
  | nil => simp [insertByCount]
  | cons y ys ih =>
    by_cases h : a.2 < y.2 <;> simp [insertByCount, h, ih] <;> tauto

theorem pairwise_insertByCount (a : String × Nat) (l : List (String × Nat))
    (h : l.Pairwise (fun p q => q.2 ≤ p.2)) :
    (insertByCount a l).Pairwise (fun p q => q.2 ≤ p.2) := by
  induction l with
  | nil => simp [insertByCount]
  | cons y ys ih =>
    rw [List.pairwise_cons] at h
    obtain ⟨hy, hys⟩ := h
    by_cases hlt : a.2 < y.2
    · simp only [insertByCount, hlt, if_pos]
      rw [List.pairwise_cons]
      refine ⟨?_, ih hys⟩
      intro z hz
      rcases (mem_insertByCount a z ys).mp hz with rfl | hz
      · exact Nat.le_of_lt hlt
      · exact hy z hz
    · simp only [insertByCount, hlt, if_neg, not_false_iff]
      rw [List.pairwise_cons]
      refine ⟨?_, by rw [List.pairwise_cons]; exact ⟨hy, hys⟩⟩
      intro z hz
      rcases List.mem_cons.mp hz with rfl | hz
      · omega
      · exact Nat.le_trans (hy z hz) (by omega)

theorem sorted_sortByCountDesc (l : List (String × Nat)) :
    (sortByCountDesc l).Pairwise (fun p q => q.2 ≤ p.2) := by
  induction l with
  | nil => simp [sortByCountDesc]
  | cons x xs ih => exact pairwise_insertByCount x _ ih

theorem mem_sortByCountDesc (x : String × Nat) (l : List (String × Nat)) :
    x ∈ sortByCountDesc l ↔ x ∈ l := by
  induction l with
  | nil => simp [sortByCountDesc]
  | cons y ys ih =>
    show x ∈ insertByCount y (sortByCountDesc ys) ↔ _
    rw [mem_insertByCount, ih]
    simp

theorem filter_insertByCount (a : String × Nat) (k : Nat) :
    ∀ l, (insertByCount a l).filter (fun e => e.2 == k) =
      ((a :: l).filter (fun e => e.2 == k)) := by
  intro l
  induction l with
  | nil => rfl
  | cons y ys ih =>
    by_cases hlt : a.2 < y.2
    · by_cases hyk : (y.2 == k) = true
      · have hak : ¬ (a.2 == k) = true := by
          simp only [beq_iff_eq] at hyk ⊢; omega
        simp [insertByCount, hlt, List.filter_cons, hyk, hak, ih]
      · simp [insertByCount, hlt, List.filter_cons, hyk, ih]
    · simp [insertByCount, hlt]

theorem filter_sortByCountDesc (k : Nat) (l : List (String × Nat)) :
    (sortByCountDesc l).filter (fun e => e.2 == k) = l.filter (fun e => e.2 == k) := by
  induction l with
  | nil => rfl
  | cons x xs ih =>
    show (insertByCount x (sortByCountDesc xs)).filter _ = _
    rw [filter_insertByCount, List.filter_cons, List.filter_cons, ih]

/-! ## Lemmas about the half-even rounding -/

theorem roundHalfEvenDiv_err (a t : Nat) (ht : 0 < t) :
    -(t : ℤ) ≤ 2 * ((roundHalfEvenDiv a t : ℤ) * t - a) ∧
      2 * ((roundHalfEvenDiv a t : ℤ) * t - a) ≤ t := by
  have hmodlt : a % t < t := Nat.mod_lt _ ht
  have hdm : t * (a / t) + a % t = a := Nat.div_add_mod a t
  have hdm' : (t : ℤ) * ((a / t : Nat) : ℤ) + ((a % t : Nat) : ℤ) = a := by
    exact_mod_cast hdm
  have hr0 : (0 : ℤ) ≤ ((a % t : Nat) : ℤ) := Int.ofNat_nonneg _
  push_cast at hdm' hr0
  simp only [roundHalfEvenDiv]
  split
  · rename_i h
    have h' : 2 * ((a % t : Nat) : ℤ) < t := by exact_mod_cast h
    push_cast at h'
    constructor <;> push_cast <;> linarith
  · split
    · rename_i h1 h2
      have h2' : (t : ℤ) < 2 * ((a % t : Nat) : ℤ) := by exact_mod_cast h2
      have hml : ((a % t : Nat) : ℤ) < t := by exact_mod_cast hmodlt
      push_cast at h2' hml
      constructor <;> push_cast <;> linarith
    · rename_i h1 h2
      have htie : 2 * (a % t) = t := by omega
      have htie' : 2 * ((a % t : Nat) : ℤ) = t := by exact_mod_cast htie
      push_cast at htie'
      split <;> constructor <;> push_cast <;> linarith

theorem sum_pct_bound (T : Nat) (hT : 0 < T) :
    ∀ l : List (String × Nat),
      -((l.length : ℤ) * T) ≤
          2 * ((T : ℤ) * (((l.map (fun e => roundHalfEvenDiv (10000 * e.2) T)).sum : Nat) : ℤ)
            - 10000 * (((l.map (fun e => e.2)).sum : Nat) : ℤ)) ∧
        2 * ((T : ℤ) * (((l.map (fun e => roundHalfEvenDiv (10000 * e.2) T)).sum : Nat) : ℤ)
            - 10000 * (((l.map (fun e => e.2)).sum : Nat) : ℤ)) ≤ (l.length : ℤ) * T := by
  intro l
  induction l with
  | nil => simp
  | cons x xs ih =>
    obtain ⟨ih1, ih2⟩ := ih
    obtain ⟨e1, e2⟩ := roundHalfEvenDiv_err (10000 * x.2) T hT
    simp only [List.map_cons, List.sum_cons, List.length_cons]
    push_cast at ih1 ih2 e1 e2 ⊢
    constructor <;> linarith

theorem sum_ge_length (items : List (String × Nat))
    (h : ∀ e ∈ items, 1 ≤ e.2) :
    items.length ≤ (items.map (fun e => e.2)).sum := by
  induction items with
  | nil => simp
  | cons x xs ih =>
    simp only [List.map_cons, List.sum_cons, List.length_cons]
    have hx := h x (by simp)
    have := ih (fun e he => h e (by simp [he]))
    omega

theorem bucketsPos_step (s : CState) (r : DDRecord) (h : BucketsPos s) :
    BucketsPos (step s r) := by
  obtain ⟨h1, h2, h3⟩ := h
  exact ⟨counts_pos_bump _ _ h1, counts_pos_bump _ _ h2, counts_pos_bump _ _ h3⟩

theorem bucketsPos_foldl (rs : List DDRecord) :
    ∀ s : CState, BucketsPos s → BucketsPos (rs.foldl step s) := by
  induction rs with
  | nil => exact fun s h => h
  | cons r rest ih => exact fun s h => ih (step s r) (bucketsPos_step s r h)

theorem mem_top_list (x : String × Nat) (c : Counter) (k : Nat)
    (h : x ∈ top_list c k) : x ∈ c :=
  (mem_sortByCountDesc x c).mp (List.take_subset _ _ h)

/-! ## Lemmas about the dependency and operation fallback chains -/

theorem truthy_depOf (tags : List String) :
    truthy (depOf tags) =
      depPrefixes.findSome? (fun q => truthy (parse_tag_value q tags)) := by
  simp only [depOf, depPrefixes]
  rw [truthy_pyOr, truthy_pyOr, truthy_pyOr]
  simp only [List.findSome?_cons, List.findSome?_nil]
  cases truthy (parse_tag_value "peer.service:" tags) <;> simp
  cases truthy (parse_tag_value "db.instance:" tags) <;> simp
  cases truthy (parse_tag_value "http.host:" tags) <;> simp
  cases truthy (parse_tag_value "net.peer.name:" tags) <;> simp

/-! ## Lemmas about add_pct -/

theorem sumPct_addPctList (items : List (String × Nat)) :
    sumPct (addPctList items) =
      (items.map (fun e => roundHalfEvenDiv (10000 * e.2) (totalFloor items))).sum := by
  simp only [sumPct, addPctList, List.map_map]
  rfl

theorem counts_addPctList (items : List (String × Nat)) :
    (addPctList items).map (fun e => e.count) = items.map (fun e => e.2) := by
  simp [addPctList, List.map_map, Function.comp]

/-! ## Lemmas about the normalized output format -/

theorem toUTC_off (dt : PyDateTime) : (toUTC dt).off = some 0 := by
  cases h : dt.off <;> simp [toUTC, astimezoneUtc, h]

theorem offsetSuffix_zero : offsetSuffix (some 0) = "+00:00" := by decide

theorem isoformat_toUTC_ends (dt : PyDateTime) :
    ∃ b, isoformat (toUTC dt) = b ++ "+00:00" := by
  refine ⟨isoBase (toUTC dt), ?_⟩
  simp only [isoformat, toUTC_off, offsetSuffix_zero]

theorem truthy_findSome (l : List String) (f : String → Option String) :
    truthy (l.findSome? (fun q => truthy (f q))) = l.findSome? (fun q => truthy (f q)) := by
  induction l with
  | nil => rfl
  | cons a as ih =>
    simp only [List.findSome?_cons]
    cases h : truthy (f a) with
    | none => exact ih
    | some v =>
      obtain ⟨-, hv⟩ := truthy_some_ne (f a) v h
      simp [truthy, hv]

/-- Unfolding of the aggregation pipeline into its components. -/
theorem aggregate_unfold (rs : List DDRecord) :
    aggregate rs =
      ((addPctList (top_list ((rs.foldl step initState).by_version) 5),
        addPctList (top_list ((rs.foldl step initState).by_host) 5),
        addPctList (top_list ((rs.foldl step initState).by_error_code) 5)),
        (rs.foldl step initState).dependencies,
        (rs.foldl step initState).operations) := rfl

theorem addPctList_pct_eq (items : List (String × Nat)) :
    ∀ e ∈ addPctList items,
      e.pct = roundHalfEvenDiv (10000 * e.count) (entryTotalFloor (addPctList items)) := by
  have hT : entryTotalFloor (addPctList items) = totalFloor items := by
    simp [entryTotalFloor, totalFloor, counts_addPctList]
  intro e he
  rw [hT]
  simp only [addPctList, List.mem_map] at he
  obtain ⟨x, -, rfl⟩ := he
  rfl

theorem bound_arith (P S n : ℤ) (hS : 1 ≤ S) (hn5 : n ≤ 5)
    (h1 : -(n * S) ≤ 2 * (S * P - 10000 * S)) (h2 : 2 * (S * P - 10000 * S) ≤ n * S) :
    9998 ≤ P ∧ P ≤ 10002 := by
  have hS0 : (0 : ℤ) ≤ S := by linarith
  have t1 : n * S ≤ 5 * S := mul_le_mul_of_nonneg_right hn5 hS0
  have key1 : S * (2 * P - 20000) ≤ S * 5 := by nlinarith
  have key2 : S * (-5) ≤ S * (2 * P - 20000) := by nlinarith
  have k1 := le_of_mul_le_mul_left key1 (by linarith)
  have k2 := le_of_mul_le_mul_left key2 (by linarith)
  omega

theorem addPctList_sum_bounds (items : List (String × Nat))
    (hpos : ∀ e ∈ items, 1 ≤ e.2) (hlen : items.length ≤ 5) (hne : items ≠ []) :
    9998 ≤ sumPct (addPctList items) ∧ sumPct (addPctList items) ≤ 10002 := by
  have hlen1 : 1 ≤ items.length := by
    cases items with
    | nil => exact absurd rfl hne
    | cons x xs => simp
  have hSpos : 1 ≤ (items.map (fun e => e.2)).sum :=
    le_trans hlen1 (sum_ge_length items hpos)
  have hTF : totalFloor items = (items.map (fun e => e.2)).sum := by
    have h0 : ¬ ((items.map (fun e => e.2)).sum = 0) := by omega
    simp [totalFloor, h0]
  rw [sumPct_addPctList, hTF]
  obtain ⟨b1, b2⟩ := sum_pct_bound ((items.map (fun e => e.2)).sum) (by omega) items
  have hres := bound_arith _ _ _ (by exact_mod_cast hSpos) (by exact_mod_cast hlen) b1 b2
  obtain ⟨ha, hb⟩ := hres
  constructor <;> omega

theorem addPct_top_bounds (c : Counter) (hpos : ∀ e ∈ c, 1 ≤ e.2) :
    (addPctList (top_list c 5) = [] → sumPct (addPctList (top_list c 5)) = 0) ∧
    (addPctList (top_list c 5) ≠ [] →
      9998 ≤ sumPct (addPctList (top_list c 5)) ∧ sumPct (addPctList (top_list c 5)) ≤ 10002) := by
  constructor
  · intro h; rw [h]; rfl
  · intro h
    have hne : top_list c 5 ≠ [] := by
      intro hh; apply h; rw [hh]; rfl
    have hpos' : ∀ e ∈ top_list c 5, 1 ≤ e.2 := fun e he => hpos e (mem_top_list e c 5 he)
    have hlen : (top_list c 5).length ≤ 5 := by
      simpa [top_list] using List.length_take_le 5 (sortByCountDesc c)
    exact addPctList_sum_bounds _ hpos' hlen hne

theorem bucketsPos_init : BucketsPos initState := by
  refine ⟨?_, ?_, ?_⟩ <;> intro e he <;> simp [initState] at he

/-! ## Claim theorems -/

/-- C1, counterexample: on six records with six distinct host values the
by_host bucket keeps five entries of count 1, and each gets pct 20.00
(centi 2000) computed against the bucket total 5, while the spec formula
with the full-facet total 6 gives 16.67 (centi 1667). -/
theorem c1_counterexample :
    ((aggregate c1_input).1.2.1).map (fun e => (e.value, e.count, e.pct)) =
      [("a", 1, 2000), ("b", 1, 2000), ("c", 1, 2000), ("d", 1, 2000), ("e", 1, 2000)] ∧
    specPctOfFullFacet ((c1_input.foldl step initState).by_host) 1 = 1667 ∧
    (2000 : Nat) ≠ 1667 :=
  ⟨rfl, rfl, by decide⟩

/-- C1, amended: the pct of every entry of every JSON-bound bucket equals
count over the sum of the counts of the entries KEPT in that bucket
(top five), floored at 1, times 100 and rounded half-even to 2 decimals
(centi-percent representation). -/
theorem c1_pct_of_bucket_total (rs : List DDRecord) :
    (∀ e ∈ (aggregate rs).1.1,
      e.pct = roundHalfEvenDiv (10000 * e.count) (entryTotalFloor ((aggregate rs).1.1))) ∧
    (∀ e ∈ (aggregate rs).1.2.1,
      e.pct = roundHalfEvenDiv (10000 * e.count) (entryTotalFloor ((aggregate rs).1.2.1))) ∧
    (∀ e ∈ (aggregate rs).1.2.2,
      e.pct = roundHalfEvenDiv (10000 * e.count) (entryTotalFloor ((aggregate rs).1.2.2))) :=
  ⟨addPctList_pct_eq _, addPctList_pct_eq _, addPctList_pct_eq _⟩

/-- C1, witness: the single by_version entry of the round-trip input
satisfies the amended pct equation. -/
theorem c1_witness :
    (Entry.mk "1.2" 2 10000).pct =
      roundHalfEvenDiv (10000 * (Entry.mk "1.2" 2 10000).count)
        (entryTotalFloor ((aggregate c7_input).1.1)) :=
  (c1_pct_of_bucket_total c7_input).1 (Entry.mk "1.2" 2 10000) (by decide)

/-- C2, counterexample: thirty-two records over four distinct hosts with
counts 15, 11, 3, 3. The facet has four distinct values (at most five), yet
the pct values 46.88, 34.38, 9.38, 9.38 sum to 100.02: more than the
claimed 100.01 tolerance and different from the claimed exact 100.00. -/
theorem c2_counterexample :
    sumPct ((aggregate c2_input).1.2.1) = 10002 ∧
    ((aggregate c2_input).1.2.1).length = 4 ∧
    ¬ (10002 : Nat) ≤ 10001 ∧ (10002 : Nat) ≠ 10000 :=
  ⟨rfl, rfl, by decide, by decide⟩

/-- C2, amended: for every input and each JSON-bound facet, the pct values
of an empty bucket sum to 0, and those of a nonempty bucket sum to within
0.025 of 100 percent (centi-percent sum between 9998 and 10002), whether or
not the bucket was truncated, because the denominator is the total of the
kept entries themselves. -/
theorem c2_pct_sum_near_100 (rs : List DDRecord) :
    (((aggregate rs).1.1 = [] → sumPct ((aggregate rs).1.1) = 0) ∧
      ((aggregate rs).1.1 ≠ [] →
        9998 ≤ sumPct ((aggregate rs).1.1) ∧ sumPct ((aggregate rs).1.1) ≤ 10002)) ∧
    (((aggregate rs).1.2.1 = [] → sumPct ((aggregate rs).1.2.1) = 0) ∧
      ((aggregate rs).1.2.1 ≠ [] →
        9998 ≤ sumPct ((aggregate rs).1.2.1) ∧ sumPct ((aggregate rs).1.2.1) ≤ 10002)) ∧
    (((aggregate rs).1.2.2 = [] → sumPct ((aggregate rs).1.2.2) = 0) ∧
      ((aggregate rs).1.2.2 ≠ [] →
        9998 ≤ sumPct ((aggregate rs).1.2.2) ∧ sumPct ((aggregate rs).1.2.2) ≤ 10002)) := by
  obtain ⟨h1, h2, h3⟩ := bucketsPos_foldl rs initState bucketsPos_init
  exact ⟨addPct_top_bounds _ h1, addPct_top_bounds _ h2, addPct_top_bounds _ h3⟩

/-- C2, witness: the by_version bucket of the round-trip input is nonempty
and its pct sum lies in the amended window. -/
theorem c2_witness :
    9998 ≤ sumPct ((aggregate c7_input).1.1) ∧ sumPct ((aggregate c7_input).1.1) ≤ 10002 :=
  (c2_pct_sum_near_100 c7_input).1.2 (by decide)

/-- C3: for a colon-terminated facet name, processing one record gives the
facet counter at most one increment in total and at most one per key; no
matching tag leaves the counter unchanged; and a successful extraction is
exactly the suffix of the FIRST tag starting with the facet name, after
stripping the facet name. -/
theorem c3_first_match_single_increment (p : List Char) (P : String)
    (hp : ':' ∉ p) (hP : P.data = p ++ [':']) (tags : List String) (c : Counter) :
    totalCount (bump c (parse_tag_value P tags)) ≤ totalCount c + 1 ∧
    (∀ k, cnt (bump c (parse_tag_value P tags)) k ≤ cnt c k + 1) ∧
    (parse_tag_value P tags = none → bump c (parse_tag_value P tags) = c) ∧
    ((∀ t ∈ tags, isPrefixL P.data t.data = false) → parse_tag_value P tags = none) ∧
    (∀ v, parse_tag_value P tags = some v →
      ∃ t, tags.find? (fun u => isPrefixL P.data u.data) = some t ∧
        v = String.mk (t.data.drop (p.length + 1))) := by
  refine ⟨totalCount_bump_le _ _, fun k => cnt_bump_le _ _ _, ?_, ?_, ?_⟩
  · intro h; rw [h]; rfl
  · intro h
    rw [ptv_eq_find]
    have hf : tags.find? (fun t => isPrefixL P.data t.data) = none :=
      List.find?_eq_none.mpr (fun x hx => by simp [h x hx])
    rw [hf]; rfl
  · intro v hv
    rw [ptv_eq_find] at hv
    cases hfind : tags.find? (fun t => isPrefixL P.data t.data) with
    | none => simp [hfind] at hv
    | some t =>
      rw [hfind] at hv
      simp only [Option.map_some', Option.some.injEq] at hv
      refine ⟨t, rfl, ?_⟩
      have hpref :=
        @List.find?_some String (fun u => isPrefixL P.data u.data) t tags hfind
      have hcol := afterColonL_of_pfx p t.data hp (by rw [← hP]; exact hpref)
      rw [← hv, hcol]

/-- C3, witness: the first matching version tag wins and yields one
increment on a concrete record. -/
theorem c3_witness :
    totalCount (bump [] (parse_tag_value "version:" ["app", "version:1.2", "version:9"])) ≤
      totalCount ([] : Counter) + 1 :=
  (c3_first_match_single_increment ("version".data) "version:" (by decide) (by decide)
    ["app", "version:1.2", "version:9"] []).1

/-- C4: the dependency value of a record is the first truthy extraction
over the four prefixes in their fixed priority order; the operation value
is the operation tag value when truthy, else the name field; each record
adds at most one count to each of the two counters; and the concrete
two-tag record of the spec contributes only X. -/
theorem c4_dep_priority_op_fallback (r : DDRecord) (acc : CState) :
    (step acc r).dependencies =
      bump acc.dependencies
        (depPrefixes.findSome? (fun q => truthy (parse_tag_value q (tagsOf r)))) ∧
    (step acc r).operations =
      bump acc.operations
        (match truthy (parse_tag_value "operation:" (tagsOf r)) with
          | some v => some v
          | none => r.name) ∧
    totalCount ((step acc r).dependencies) ≤ totalCount acc.dependencies + 1 ∧
    totalCount ((step acc r).operations) ≤ totalCount acc.operations + 1 ∧
    (step initState (mkRec ["peer.service:X", "db.instance:Y"])).dependencies = [("X", 1)] := by
  refine ⟨?_, ?_, totalCount_bump_le _ _, totalCount_bump_le _ _, by decide⟩
  · show bump acc.dependencies (depOf (tagsOf r)) = _
    apply bump_of_truthy_eq
    rw [truthy_depOf, truthy_findSome]
  · show bump acc.operations (opOf r) = _
    apply bump_of_truthy_eq
    rw [opOf, truthy_pyOr]
    cases h : truthy (parse_tag_value "operation:" (tagsOf r)) with
    | none => rfl
    | some v =>
      obtain ⟨-, hv⟩ := truthy_some_ne _ _ h
      simp [truthy, hv]

/-- C5: the aggregation is a total function; the empty input yields empty
buckets and empty dependency and operation counters; a record with an
absent or null tags field behaves as one with an empty tag list; a record
with no version match leaves the version counter unchanged; a record whose
operation extraction is falsy leaves the operations counter unchanged. -/
theorem c5_total_and_silent_skips :
    aggregate [] = (([], [], []), [], []) ∧
    (∀ (acc : CState) (nm : Option String),
      step acc ⟨none, nm⟩ = step acc ⟨some [], nm⟩) ∧
    (∀ (acc : CState) (r : DDRecord), parse_tag_value "version:" (tagsOf r) = none →
      (step acc r).by_version = acc.by_version) ∧
    (∀ (acc : CState) (r : DDRecord), truthy (opOf r) = none →
      (step acc r).operations = acc.operations) ∧
    (∀ rs : List DDRecord, ∃ out, aggregate rs = out) := by
  refine ⟨rfl, fun acc nm => rfl, ?_, ?_, fun rs => ⟨_, rfl⟩⟩
  · intro acc r h
    show bump acc.by_version (parse_tag_value "version:" (tagsOf r)) = acc.by_version
    rw [h]; rfl
  · intro acc r h
    show bump acc.operations (opOf r) = acc.operations
    simp only [bump, h]

/-- C5, witness: a record with only a host tag leaves by_version alone. -/
theorem c5_witness :
    (step initState (mkRec ["host:a"])).by_version = initState.by_version :=
  (c5_total_and_silent_skips).2.2.1 initState (mkRec ["host:a"]) (by decide)

/-- C6: each JSON-bound bucket is the five-element prefix of the stable
descending sort of its facet counter; buckets are sorted by count
descending and have at most five entries; entries of equal count keep the
counter order, which by the incr equation is first-observation order; and
the pipeline is deterministic. -/
theorem c6_rank_desc_top5_stable (rs : List DDRecord) :
    ((collect_buckets rs).1.1 = top_list ((rs.foldl step initState).by_version) 5 ∧
      (collect_buckets rs).1.2.1 = top_list ((rs.foldl step initState).by_host) 5 ∧
      (collect_buckets rs).1.2.2 = top_list ((rs.foldl step initState).by_error_code) 5) ∧
    ((collect_buckets rs).1.1.Pairwise (fun a b => b.2 ≤ a.2) ∧
      (collect_buckets rs).1.2.1.Pairwise (fun a b => b.2 ≤ a.2) ∧
      (collect_buckets rs).1.2.2.Pairwise (fun a b => b.2 ≤ a.2)) ∧
    ((collect_buckets rs).1.1.length ≤ 5 ∧
      (collect_buckets rs).1.2.1.length ≤ 5 ∧
      (collect_buckets rs).1.2.2.length ≤ 5) ∧
    (∀ k : Nat,
      (sortByCountDesc ((rs.foldl step initState).by_version)).filter (fun e => e.2 == k) =
        ((rs.foldl step initState).by_version).filter (fun e => e.2 == k) ∧
      (sortByCountDesc ((rs.foldl step initState).by_host)).filter (fun e => e.2 == k) =
        ((rs.foldl step initState).by_host).filter (fun e => e.2 == k) ∧
      (sortByCountDesc ((rs.foldl step initState).by_error_code)).filter (fun e => e.2 == k) =
        ((rs.foldl step initState).by_error_code).filter (fun e => e.2 == k)) ∧
    (∀ (c : Counter) (v : String),
      keysOf (incr c v) = if v ∈ keysOf c then keysOf c else keysOf c ++ [v]) ∧
    (∀ rs2, rs2 = rs → collect_buckets rs2 = collect_buckets rs) := by
  refine ⟨⟨rfl, rfl, rfl⟩, ⟨?_, ?_, ?_⟩, ⟨?_, ?_, ?_⟩, ?_, keysOf_incr, fun rs2 h => by rw [h]⟩
  · exact (sorted_sortByCountDesc _).sublist (List.take_sublist 5 _)
  · exact (sorted_sortByCountDesc _).sublist (List.take_sublist 5 _)
  · exact (sorted_sortByCountDesc _).sublist (List.take_sublist 5 _)
  · simpa [collect_buckets, top_list] using List.length_take_le 5 _
  · simpa [collect_buckets, top_list] using List.length_take_le 5 _
  · simpa [collect_buckets, top_list] using List.length_take_le 5 _
  · exact fun k => ⟨filter_sortByCountDesc k _, filter_sortByCountDesc k _,
      filter_sortByCountDesc k _⟩

/-- C6, witness: determinism instantiated at the round-trip input. -/
theorem c6_witness : collect_buckets c7_input = collect_buckets c7_input :=
  (c6_rank_desc_top5_stable c7_input).2.2.2.2.2 c7_input rfl

/-- C7: the round-trip scenario evaluates exactly as the spec states, with
pct in centi-percent (10000 is 100.0, 5000 is 50.0), and the two hosts of
equal count ordered a before b by first observation. -/
theorem c7_round_trip :
    (aggregate c7_input).1.1 = [⟨"1.2", 2, 10000⟩] ∧
    (aggregate c7_input).1.2.1 = [⟨"a", 1, 5000⟩, ⟨"b", 1, 5000⟩] ∧
    (aggregate c7_input).1.2.2 = [⟨"500", 1, 10000⟩] :=
  ⟨rfl, rfl, rfl⟩

/-- C8, counterexample: the fractional input parses DIRECTLY (fromisoformat
accepts fractional seconds), so the fraction is preserved and the output is
not the truncated string of the claim. -/
theorem c8_counterexample :
    to_utc_with_offset (some "2024-01-01T10:00:00.123456") =
      Except.ok (some "2024-01-01T10:00:00.123456+00:00") ∧
    ("2024-01-01T10:00:00.123456+00:00" : String) ≠ "2024-01-01T10:00:00+00:00" :=
  ⟨rfl, by decide⟩

/-- C8, amended: the naive fractional input takes the direct-parse path,
keeps its sub-second digits, and is assumed UTC, producing
2024-01-01T10:00:00.123456+00:00. -/
theorem c8_fraction_preserved :
    to_utc_with_offset (some "2024-01-01T10:00:00.123456") =
      Except.ok (some "2024-01-01T10:00:00.123456+00:00") := rfl

/-- C9: the Z-suffixed input maps to the same instant with an explicit
+00:00 offset; every successful output carries a +00:00 suffix; and null
or empty input yields null without raising. -/
theorem c9_normalizes_to_utc_offset :
    to_utc_with_offset (some "2024-01-01T10:00:00Z") =
      Except.ok (some "2024-01-01T10:00:00+00:00") ∧
    (∀ s out, to_utc_with_offset (some s) = Except.ok (some out) →
      ∃ b, out = b ++ "+00:00") ∧
    to_utc_with_offset none = Except.ok none ∧
    to_utc_with_offset (some "") = Except.ok none := by
  refine ⟨rfl, ?_, rfl, rfl⟩
  intro s out h
  simp only [to_utc_with_offset] at h
  by_cases hs : s = ""
  · simp [hs] at h
  · simp only [if_neg hs] at h
    split at h
    · rename_i dt hp
      obtain rfl : isoformat (toUTC dt) = out := by simpa using h
      exact isoformat_toUTC_ends dt
    · split at h
      · rename_i dt hp2
        obtain rfl : isoformat (toUTC dt) = out := by simpa using h
        exact isoformat_toUTC_ends dt
      · simp at h

/-- C9, witness: an offset-bearing input is converted across midnight and
still ends in +00:00. -/
theorem c9_witness : ∃ b, ("2023-12-31T19:30:00+00:00" : String) = b ++ "+00:00" :=
  (c9_normalizes_to_utc_offset).2.1 "2024-01-01T00:30:00+05:00"
    "2023-12-31T19:30:00+00:00" rfl

/-- C10: a nonempty all-whitespace input passes the null-or-empty guard,
strips to the empty string, fails the direct parse, is not rewritten by the
fallback (no T character), fails again and raises. -/
theorem c10_whitespace_raises (s : String) (hne : s.data ≠ [])
    (hws : ∀ c ∈ s.data, isPySpace c = true) :
    to_utc_with_offset (some s) = Except.error () := by
  have hs : ¬ (s = "") := by
    intro h
    apply hne
    rw [h]
  have hstrip : pyStripL s.data = [] := by
    simp only [pyStripL]
    have h1 : s.data.dropWhile isPySpace = [] := List.dropWhile_eq_nil_iff.mpr hws
    rw [h1]
    rfl
  have hrepl : replaceZL (pyStripL s.data) ("+00:00".data) = [] := by
    rw [hstrip]; rfl
  simp only [to_utc_with_offset, if_neg hs, hrepl]
  rfl

/-- C10, witness: the single-space input raises. -/
theorem c10_witness : to_utc_with_offset (some " ") = Except.error () :=
  c10_whitespace_raises " " (by decide) (by decide)

end IncidentAvengers
